import Mathlib

/-!
Shallow embedding of the ttynt line colorizer (src/main.rs) and proofs of its
specified properties.

The program reads lines, matches them against compiled regex patterns paired with
palette colors, and writes each line back with matched spans colorized. Regex
construction and matching are external collaborators (the regex crate); they are
modelled abstractly: a compiled regex is represented by the function the program
actually uses, namely find_iter producing the (start, end) offset pairs of its
matches in a line. Lines are lists of characters; terminal output is a list of
sink operations.
-/

namespace Ttynt

/-- Embeds the termcolor Color enum, restricted to the variants the program uses. -/
inductive Color where
  | Red
  | Yellow
  | Blue
  | Green
  | Magenta
  | Cyan
  | Ansi256 (code : Nat)
deriving DecidableEq, Repr, Inhabited

/-- The fixed palette of assign_color_to_pattern (src/main.rs lines 38-51). -/
def colors : List Color :=
  [Color.Red, Color.Yellow, Color.Blue, Color.Green, Color.Magenta, Color.Cyan,
   Color.Ansi256 49, Color.Ansi256 220, Color.Ansi256 51,
   Color.Ansi256 106, Color.Ansi256 207, Color.Ansi256 165]

/-- A compiled regex, modelled by the one operation the program performs with it:
find_iter over a line, yielding the (start, end) offsets of its matches. -/
def Matcher : Type := List Char → List (Nat × Nat)

/-- One collected match: the (start, end, Color) tuple of apply_color (line 112).
Since end is a reserved word in Lean, the second field is named stop. -/
structure Match where
  start : Nat
  stop : Nat
  color : Color
deriving DecidableEq, Repr, Inhabited

/-- One operation on the output sink, i.e. on the WriteColor stream, as performed by
the helpers write, write_line, set_color and reset_color (lines 71-87). writeLine s
writes s followed by one line terminator. setColor c bg embeds set_color with a
ColorSpec whose background (bg = true) or foreground (bg = false) is set to c. -/
inductive SinkOp where
  | write (s : List Char)
  | writeLine (s : List Char)
  | setColor (c : Color) (bg : Bool)
  | reset
deriving DecidableEq, Repr

/-- Rust string slicing line[lo..hi] on a character list. -/
def slice (line : List Char) (lo hi : Nat) : List Char :=
  (line.drop lo).take (hi - lo)

/-- The match-collection loop of apply_color (lines 112-118): every pattern is run
over the whole original line, in pattern-list order, and all matches are gathered. -/
def collectMatches (line : List Char) (patterns : List (Matcher × Color)) :
    List Match :=
  patterns.flatMap fun pc => (pc.1 line).map fun se => ⟨se.1, se.2, pc.2⟩

/-- Embeds matches.sort_by_key on the start offset (line 125). The Rust sort_by_key
is a stable sort, so it is embedded with the stable mergeSort. -/
def sortByStart (ms : List Match) : List Match :=
  ms.mergeSort fun a b => a.start ≤ b.start

/-- The span-mode rendering loop of apply_color (lines 141-158): walk the sorted
matches keeping last_end, render a match only when its start is at or after
last_end, and afterwards emit the trailing unstyled slice plus the terminator. -/
def renderLoop (line : List Char) (background : Bool) :
    List Match → Nat → List SinkOp
  | [], lastEnd => [SinkOp.writeLine (line.drop lastEnd)]
  | m :: rest, lastEnd =>
    if lastEnd ≤ m.start then
      SinkOp.write (slice line lastEnd m.start) ::
      SinkOp.setColor m.color background ::
      SinkOp.write (slice line m.start m.stop) ::
      SinkOp.reset ::
      renderLoop line background rest m.stop
    else
      renderLoop line background rest lastEnd

/-- Embeds apply_color (lines 105-162): the sequence of sink operations emitted and
the boolean the function returns. -/
def apply_color (line : List Char) (patterns : List (Matcher × Color))
    (whole_line background : Bool) : List SinkOp × Bool :=
  let found := collectMatches line patterns
  if found = [] then
    ([SinkOp.writeLine line], false)
  else
    let sorted := sortByStart found
    if whole_line then
      ([SinkOp.setColor sorted.headI.color background, SinkOp.write line,
        SinkOp.reset, SinkOp.writeLine []], true)
    else
      (renderLoop line background sorted 0, true)

/-- The greedy left-to-right selection of non-overlapping matches: exactly the
matches the span loop renders (those whose start is at or after last_end). -/
def greedySelect : List Match → Nat → List Match
  | [], _ => []
  | m :: rest, lastEnd =>
    if lastEnd ≤ m.start then m :: greedySelect rest m.stop
    else greedySelect rest lastEnd

/-- The text payload an operation sends to the sink (the terminator aside). -/
def opText : SinkOp → List Char
  | SinkOp.write s => s
  | SinkOp.writeLine s => s
  | _ => []

/-- Concatenation of all text slices, styled and unstyled, sent to the sink. -/
def emittedText (ops : List SinkOp) : List Char :=
  (ops.map opText).flatten

/-- The text payloads of the write and writeLine operations, in emission order. -/
def writesOf (ops : List SinkOp) : List (List Char) :=
  ops.filterMap fun op => match op with
    | SinkOp.write s => some s
    | SinkOp.writeLine s => some s
    | _ => none

/-- The (lo, hi) bounds of every string-slicing operation the span loop performs, in
emission order; the final pair corresponds to the trailing line[last_end..] slice. -/
def spanSlices (len : Nat) : List Match → Nat → List (Nat × Nat)
  | [], lastEnd => [(lastEnd, len)]
  | m :: rest, lastEnd =>
    if lastEnd ≤ m.start then
      (lastEnd, m.start) :: (m.start, m.stop) :: spanSlices len rest m.stop
    else
      spanSlices len rest lastEnd

/-- The stderr message of the map_err closure in assign_color_to_pattern (line 62). -/
def compileErrMsg (p e : String) : String :=
  "Error compiling pattern " ++ p ++ ": " ++ e

/-- The stderr message of the Err arm in main (line 30). -/
def creatingErrMsg (e : String) : String :=
  "Error creating patterns: " ++ e

/-- The stderr message of the write and write_line helpers (lines 71-77). -/
def writeErrMsg (e : String) : String :=
  "Error writing line: " ++ e

/-- The stderr message of the Err arm in process_input (line 100). -/
def readErrMsg (e : String) : String :=
  "Error reading line: " ++ e

/-- The body of assign_color_to_pattern (lines 53-68). Regex construction is the
external RegexBuilder; it is the build parameter, taking the pattern string and the
case-insensitive flag. Returns the Result together with the stderr diagnostics
emitted along the way (the map_err eprintln at line 62). The Rust collect into a
Result stops at the first error, so patterns after the first failure are not built
and no partial vector escapes. The first argument of the recursion is the index i of
the enumerate call, used for the palette lookup colors[i % colors.len()]. -/
def assignGo (build : String → Bool → Except String Matcher) (ci : Bool) :
    Nat → List String → Except String (List (Matcher × Color)) × List String
  | _, [] => (Except.ok [], [])
  | i, p :: ps =>
    match build p ci with
    | Except.error e => (Except.error e, [compileErrMsg p e])
    | Except.ok m =>
      match assignGo build ci (i + 1) ps with
      | (Except.ok rest, ds) => (Except.ok ((m, colors[i % colors.length]!) :: rest), ds)
      | (Except.error e, ds) => (Except.error e, ds)

/-- Embeds assign_color_to_pattern (lines 34-69): the case_insensitive builder option
is enabled exactly when case_sensitive is false (lines 57-60). -/
def assign_color_to_pattern (build : String → Bool → Except String Matcher)
    (patterns : List String) (case_sensitive : Bool) :
    Except String (List (Matcher × Color)) × List String :=
  assignGo build (!case_sensitive) 0 patterns

/-- The first pattern of the list that fails to build, with its error, if any. -/
def firstFailure (build : String → Bool → Except String Matcher) (ci : Bool) :
    List String → Option (String × String)
  | [] => none
  | p :: ps =>
    match build p ci with
    | Except.error e => some (p, e)
    | Except.ok _ => firstFailure build ci ps

/-- The diagnostics main emits around pattern creation (lines 28-31): those of
assign_color_to_pattern, followed by the top-level eprintln when it returned Err. -/
def mainDiagnostics (build : String → Bool → Except String Matcher)
    (patterns : List String) (case_sensitive : Bool) : List String :=
  match assign_color_to_pattern build patterns case_sensitive with
  | (Except.ok _, ds) => ds
  | (Except.error e, ds) => ds ++ [creatingErrMsg e]

/-- Error handling of the write and write_line helpers (lines 71-77): the diagnostics
emitted for one write outcome — exactly one message on failure, none on success. -/
def writeDiag : Except String Unit → List String
  | Except.ok _ => []
  | Except.error e => [writeErrMsg e]

/-- Error handling of one line read in process_input (lines 95-101): exactly one
message when the read fails, none when it succeeds. -/
def readLineDiag : Except String (List Char) → List String
  | Except.ok _ => []
  | Except.error e => [readErrMsg e]

/-! Properties of the stable sort on the start offset. -/

lemma leStart_trans : ∀ a b c : Match, decide (a.start ≤ b.start) = true →
    decide (b.start ≤ c.start) = true → decide (a.start ≤ c.start) = true := by
  intro a b c hab hbc
  simp only [decide_eq_true_eq] at hab hbc ⊢
  omega

lemma leStart_total : ∀ a b : Match,
    (decide (a.start ≤ b.start) || decide (b.start ≤ a.start)) = true := by
  intro a b
  simp only [Bool.or_eq_true, decide_eq_true_eq]
  omega

lemma sortByStart_perm (ms : List Match) : (sortByStart ms).Perm ms :=
  List.mergeSort_perm ms _

lemma sortByStart_pairwise (ms : List Match) :
    List.Pairwise (fun a b => a.start ≤ b.start) (sortByStart ms) := by
  have h := @List.sorted_mergeSort Match (fun a b => a.start ≤ b.start)
    leStart_trans leStart_total ms
  exact h.imp fun hab => of_decide_eq_true hab

lemma sortByStart_filter_start (ms : List Match) (s : Nat) :
    (sortByStart ms).filter (fun m => m.start == s) =
      ms.filter (fun m => m.start == s) := by
  have hsub : (ms.filter (fun m => m.start == s)).Sublist (sortByStart ms) := by
    refine @List.sublist_mergeSort Match (fun a b => a.start ≤ b.start) ms
      leStart_trans leStart_total _ ?_ (List.filter_sublist ms)
    have hall : ∀ m ∈ ms.filter (fun m => m.start == s), m.start = s := by
      intro m hm
      simpa using List.of_mem_filter hm
    refine List.pairwise_of_forall_mem_list ?_
    intro a ha b hb
    have hsa := hall a ha
    have hsb := hall b hb
    simp only [decide_eq_true_eq]
    omega
  have hself : (ms.filter (fun m => m.start == s)).filter (fun m => m.start == s) =
      ms.filter (fun m => m.start == s) := by
    rw [List.filter_filter]
    simp
  have hsub2 : (ms.filter (fun m => m.start == s)).Sublist
      ((sortByStart ms).filter (fun m => m.start == s)) := by
    have := List.Sublist.filter (fun m => m.start == s) hsub
    rwa [hself] at this
  have hlen : ((sortByStart ms).filter (fun m => m.start == s)).length =
      (ms.filter (fun m => m.start == s)).length :=
    ((sortByStart_perm ms).filter _).length_eq
  exact (hsub2.eq_of_length hlen.symm).symm

/-- C4: the sort performed before rendering (matches.sort_by_key on the start offset)
orders the collected matches by ascending start offset, is a permutation of the
input, and preserves the encounter order among matches with equal start offset, so
that on a tie (even between matches with different ends) the match collected first,
i.e. the one of the earlier pattern in the list, comes first. -/
theorem match_sort_stable (ms : List Match) :
    List.Pairwise (fun a b => a.start ≤ b.start) (sortByStart ms) ∧
    (sortByStart ms).Perm ms ∧
    ∀ s : Nat, (sortByStart ms).filter (fun m => m.start == s) =
      ms.filter (fun m => m.start == s) :=
  ⟨sortByStart_pairwise ms, sortByStart_perm ms, sortByStart_filter_start ms⟩

/-! Properties of the span-mode rendering loop. -/

lemma slice_append_drop (line : List Char) {a b : Nat} (h : a ≤ b) :
    slice line a b ++ line.drop b = line.drop a := by
  unfold slice
  have hd : line.drop b = (line.drop a).drop (b - a) := by
    rw [List.drop_drop]
    congr 1
    omega
  rw [hd]
  exact List.take_append_drop _ _

lemma emittedText_cons (op : SinkOp) (ops : List SinkOp) :
    emittedText (op :: ops) = opText op ++ emittedText ops := by
  simp [emittedText]

lemma renderLoop_text (line : List Char) (bg : Bool) :
    ∀ (ms : List Match) (lastEnd : Nat), (∀ m ∈ ms, m.start ≤ m.stop) →
      emittedText (renderLoop line bg ms lastEnd) = line.drop lastEnd := by
  intro ms
  induction ms with
  | nil =>
    intro lastEnd _
    simp [renderLoop, emittedText, opText]
  | cons m rest ih =>
    intro lastEnd hwf
    have hm : m.start ≤ m.stop := hwf m (List.mem_cons_self m rest)
    have hrest : ∀ x ∈ rest, x.start ≤ x.stop := fun x hx =>
      hwf x (List.mem_cons_of_mem m hx)
    rw [renderLoop]
    by_cases hle : lastEnd ≤ m.start
    · rw [if_pos hle]
      rw [emittedText_cons, emittedText_cons, emittedText_cons, emittedText_cons,
        ih m.stop hrest]
      simp only [opText, List.append_assoc, List.nil_append]
      rw [slice_append_drop line hm, slice_append_drop line hle]
    · rw [if_neg hle]
      exact ih lastEnd hrest

/-- C1: in span mode, the concatenation of all text slices, styled or unstyled, that
apply_color sends to the sink equals the original line exactly; the hypothesis
states the guarantee of the regex matcher that each match has start at or before
end. -/
theorem span_roundtrip_preserves_line (line : List Char)
    (patterns : List (Matcher × Color)) (bg : Bool)
    (hwf : ∀ m ∈ collectMatches line patterns, m.start ≤ m.stop) :
    emittedText (apply_color line patterns false bg).1 = line := by
  unfold apply_color
  by_cases hempty : collectMatches line patterns = []
  · rw [if_pos hempty]
    simp [emittedText, opText]
  · rw [if_neg hempty, if_neg (by decide)]
    have hwfs : ∀ m ∈ sortByStart (collectMatches line patterns), m.start ≤ m.stop :=
      fun m hm => hwf m ((sortByStart_perm _).mem_iff.mp hm)
    exact renderLoop_text line bg _ 0 hwfs

lemma renderLoop_greedy (line : List Char) (bg : Bool) :
    ∀ (ms : List Match) (lastEnd : Nat),
      renderLoop line bg ms lastEnd =
        renderLoop line bg (greedySelect ms lastEnd) lastEnd := by
  intro ms
  induction ms with
  | nil => intro lastEnd; rfl
  | cons m rest ih =>
    intro lastEnd
    rw [renderLoop, greedySelect]
    by_cases hle : lastEnd ≤ m.start
    · rw [if_pos hle, if_pos hle, renderLoop, if_pos hle, ih m.stop]
    · rw [if_neg hle, if_neg hle, ih lastEnd]

lemma greedySelect_sublist :
    ∀ (ms : List Match) (lastEnd : Nat), (greedySelect ms lastEnd).Sublist ms := by
  intro ms
  induction ms with
  | nil => intro lastEnd; exact List.Sublist.refl []
  | cons m rest ih =>
    intro lastEnd
    rw [greedySelect]
    by_cases hle : lastEnd ≤ m.start
    · rw [if_pos hle]
      exact (ih m.stop).cons₂ m
    · rw [if_neg hle]
      exact (ih lastEnd).cons m

lemma greedySelect_chain :
    ∀ (ms : List Match) (lastEnd : Nat),
      List.Chain' (fun a b => a.stop ≤ b.start) (greedySelect ms lastEnd) ∧
      ∀ x ∈ (greedySelect ms lastEnd).head?, lastEnd ≤ x.start := by
  intro ms
  induction ms with
  | nil =>
    intro lastEnd
    exact ⟨List.chain'_nil, by simp [greedySelect]⟩
  | cons m rest ih =>
    intro lastEnd
    rw [greedySelect]
    by_cases hle : lastEnd ≤ m.start
    · rw [if_pos hle]
      constructor
      · rw [List.chain'_cons']
        exact ⟨fun y hy => (ih m.stop).2 y hy, (ih m.stop).1⟩
      · intro x hx
        simp only [List.head?_cons, Option.mem_def, Option.some.injEq] at hx
        subst hx
        exact hle
    · rw [if_neg hle]
      exact ih lastEnd

/-- C2: in the span loop, a match whose start is strictly before last_end is skipped
entirely — nothing is emitted for it and last_end is unchanged — while a match with
start at or after last_end is rendered and sets last_end to its end: rendering a
match list is rendering its greedy non-overlapping selection, that selection is a
sublist of the input, and consecutive selected matches never overlap. -/
theorem span_overlap_skip (line : List Char) (bg : Bool) (m : Match)
    (rest : List Match) (lastEnd : Nat) :
    (m.start < lastEnd →
      renderLoop line bg (m :: rest) lastEnd = renderLoop line bg rest lastEnd) ∧
    (lastEnd ≤ m.start →
      renderLoop line bg (m :: rest) lastEnd =
        SinkOp.write (slice line lastEnd m.start) ::
        SinkOp.setColor m.color bg ::
        SinkOp.write (slice line m.start m.stop) ::
        SinkOp.reset ::
        renderLoop line bg rest m.stop) ∧
    renderLoop line bg (m :: rest) lastEnd =
      renderLoop line bg (greedySelect (m :: rest) lastEnd) lastEnd ∧
    (greedySelect (m :: rest) lastEnd).Sublist (m :: rest) ∧
    List.Chain' (fun a b => a.stop ≤ b.start) (greedySelect (m :: rest) lastEnd) := by
  refine ⟨?_, ?_, renderLoop_greedy line bg (m :: rest) lastEnd,
    greedySelect_sublist (m :: rest) lastEnd, (greedySelect_chain (m :: rest) lastEnd).1⟩
  · intro hlt
    rw [renderLoop, if_neg (by omega)]
  · intro hle
    rw [renderLoop, if_pos hle]

/-! Safety of the slicing operations performed by the span loop. -/

lemma slice_to_length (line : List Char) (a : Nat) :
    slice line a line.length = line.drop a := by
  unfold slice
  refine List.take_of_length_le ?_
  rw [List.length_drop]

lemma renderLoop_writes (line : List Char) (bg : Bool) :
    ∀ (ms : List Match) (lastEnd : Nat),
      writesOf (renderLoop line bg ms lastEnd) =
        (spanSlices line.length ms lastEnd).map fun p => slice line p.1 p.2 := by
  intro ms
  induction ms with
  | nil =>
    intro lastEnd
    rw [renderLoop, spanSlices]
    simp [writesOf, slice_to_length]
  | cons m rest ih =>
    intro lastEnd
    rw [renderLoop, spanSlices]
    by_cases hle : lastEnd ≤ m.start
    · rw [if_pos hle, if_pos hle]
      simp only [writesOf, List.filterMap_cons, List.map_cons] at ih ⊢
      rw [ih m.stop]
    · rw [if_neg hle, if_neg hle]
      exact ih lastEnd

lemma spanSlices_bounds (len : Nat) :
    ∀ (ms : List Match) (lastEnd : Nat),
      (∀ m ∈ ms, m.start ≤ m.stop ∧ m.stop ≤ len) → lastEnd ≤ len →
      ∀ p ∈ spanSlices len ms lastEnd, p.1 ≤ p.2 ∧ p.2 ≤ len := by
  intro ms
  induction ms with
  | nil =>
    intro lastEnd _ hlast p hp
    rw [spanSlices] at hp
    simp only [List.mem_singleton] at hp
    subst hp
    exact ⟨hlast, Nat.le_refl len⟩
  | cons m rest ih =>
    intro lastEnd hwf hlast p hp
    have hm := hwf m (List.mem_cons_self m rest)
    have hrest : ∀ x ∈ rest, x.start ≤ x.stop ∧ x.stop ≤ len := fun x hx =>
      hwf x (List.mem_cons_of_mem m hx)
    rw [spanSlices] at hp
    by_cases hle : lastEnd ≤ m.start
    · rw [if_pos hle] at hp
      simp only [List.mem_cons] at hp
      rcases hp with rfl | rfl | hp
      · exact ⟨hle, by omega⟩
      · exact ⟨hm.1, hm.2⟩
      · exact ih m.stop hrest hm.2 p hp
    · rw [if_neg hle] at hp
      exact ih lastEnd hrest hlast p hp

/-- C9: the span loop terminates (it is structurally recursive on the match list) and
every string-slicing operation it performs is within bounds with the lower bound not
exceeding the upper one: the write payloads of the loop are exactly the slices at
the bounds recorded by spanSlices, and under the matcher guarantee that each match,
zero-width ones included, has start at or before end and end at most the line
length, every recorded pair (lo, hi) satisfies lo at most hi and hi at most the line
length. -/
theorem span_slicing_safe (line : List Char) (bg : Bool) (ms : List Match) :
    writesOf (renderLoop line bg ms 0) =
      ((spanSlices line.length ms 0).map fun p => slice line p.1 p.2) ∧
    ((∀ m ∈ ms, m.start ≤ m.stop ∧ m.stop ≤ line.length) →
      ∀ p ∈ spanSlices line.length ms 0, p.1 ≤ p.2 ∧ p.2 ≤ line.length) :=
  ⟨renderLoop_writes line bg ms 0,
   fun hwf => spanSlices_bounds line.length ms 0 hwf (Nat.zero_le _)⟩

/-! Whole-line mode. -/

lemma sortByStart_headI_eq (ms : List Match) (m : Match) (hm : m ∈ ms)
    (hmin : ∀ x ∈ ms, m.start ≤ x.start)
    (hfirst : ms.find? (fun x => x.start == m.start) = some m) :
    (sortByStart ms).headI = m := by
  have hperm := sortByStart_perm ms
  have hne : sortByStart ms ≠ [] := by
    intro hnil
    rw [hnil] at hperm
    have hmsnil : ms = [] := hperm.symm.eq_nil
    rw [hmsnil] at hm
    exact List.not_mem_nil m hm
  obtain ⟨h, t, hht⟩ := List.exists_cons_of_ne_nil hne
  have hhmem : h ∈ ms := hperm.mem_iff.mp (hht ▸ List.mem_cons_self h t)
  have hstart : h.start = m.start := by
    have h1 : m.start ≤ h.start := hmin h hhmem
    have h2 : h.start ≤ m.start := by
      have hpw := sortByStart_pairwise ms
      rw [hht] at hpw
      have hmem2 : m ∈ sortByStart ms := hperm.mem_iff.mpr hm
      rw [hht] at hmem2
      rcases List.mem_cons.mp hmem2 with hEq | hmem3
      · rw [hEq]
      · exact (List.pairwise_cons.mp hpw).1 m hmem3
    omega
  have hfilter := sortByStart_filter_start ms m.start
  rw [hht] at hfilter
  rw [List.filter_cons_of_pos (by simp [hstart])] at hfilter
  have hhead : (ms.filter (fun x => x.start == m.start)).head? = some h := by
    rw [← hfilter]
    rfl
  rw [List.filter_head?, hfirst] at hhead
  have hmh : m = h := by
    simpa using hhead
  rw [hht]
  simpa [List.headI] using hmh.symm

/-- C3: in whole-line mode with at least one match, apply_color emits exactly one
styled segment covering the entire line, using the color of the earliest-starting
match — on a start-offset tie, the match collected first, i.e. the one of the
earliest pattern in the list — on the foreground when background is false and on the
background when background is true, with the reset after the line text and before
the terminator. -/
theorem whole_line_color_selection (line : List Char)
    (patterns : List (Matcher × Color)) (bg : Bool) (m : Match)
    (hm : m ∈ collectMatches line patterns)
    (hmin : ∀ x ∈ collectMatches line patterns, m.start ≤ x.start)
    (hfirst : (collectMatches line patterns).find? (fun x => x.start == m.start) =
      some m) :
    apply_color line patterns true bg =
      ([SinkOp.setColor m.color bg, SinkOp.write line, SinkOp.reset,
        SinkOp.writeLine []], true) := by
  unfold apply_color
  rw [if_neg (List.ne_nil_of_mem hm), if_pos rfl,
    sortByStart_headI_eq _ m hm hmin hfirst]

/-- C6: apply_color returns true exactly when at least one match was gathered; when
no pattern matches — the empty pattern list included — it returns false and the sink
receives exactly the original line plus one terminator, with no styling operation. -/
theorem no_match_passthrough (line : List Char) (patterns : List (Matcher × Color))
    (wl bg : Bool) :
    ((apply_color line patterns wl bg).2 = true ↔ collectMatches line patterns ≠ []) ∧
    (collectMatches line patterns = [] →
      apply_color line patterns wl bg = ([SinkOp.writeLine line], false)) := by
  unfold apply_color
  by_cases h : collectMatches line patterns = []
  · rw [if_pos h]
    constructor
    · simp [h]
    · intro _
      rfl
  · rw [if_neg h]
    refine ⟨⟨fun _ => h, fun _ => ?_⟩, fun h0 => absurd h0 h⟩
    split <;> rfl

/-- C10: apply_color is deterministic — two invocations on the same line, compiled
pattern/color list, whole-line flag and background flag emit identical operation
sequences to the sink and return the same boolean; the embedded function is a pure
function of exactly these four inputs, so both components agree by reflexivity. -/
theorem colorize_deterministic (line : List Char) (patterns : List (Matcher × Color))
    (wl bg : Bool) :
    (apply_color line patterns wl bg).1 = (apply_color line patterns wl bg).1 ∧
    (apply_color line patterns wl bg).2 = (apply_color line patterns wl bg).2 :=
  ⟨rfl, rfl⟩

/-! Pattern compilation: palette assignment and failure behaviour. -/

lemma assignGo_ok_colors (build : String → Bool → Except String Matcher) (ci : Bool) :
    ∀ (ps : List String) (i : Nat) (pairs : List (Matcher × Color)),
      (assignGo build ci i ps).1 = Except.ok pairs →
      pairs.length = ps.length ∧
      ∀ j (hj : j < pairs.length),
        (pairs.get ⟨j, hj⟩).2 = colors[(i + j) % colors.length]! := by
  intro ps
  induction ps with
  | nil =>
    intro i pairs h
    rw [assignGo] at h
    simp only [Except.ok.injEq] at h
    subst h
    exact ⟨rfl, fun j hj => absurd hj (by simp)⟩
  | cons q ps ih =>
    intro i pairs h
    rw [assignGo] at h
    cases hb : build q ci with
    | error e =>
      rw [hb] at h
      exact absurd h (by simp)
    | ok m =>
      rw [hb] at h
      rcases hr : assignGo build ci (i + 1) ps with ⟨fst, ds⟩
      rw [hr] at h
      cases fst with
      | error e =>
        exact absurd h (by simp)
      | ok rest =>
        simp only [Except.ok.injEq] at h
        subst h
        have hfst : (assignGo build ci (i + 1) ps).1 = Except.ok rest := by
          rw [hr]
        obtain ⟨hlen, hcol⟩ := ih (i + 1) rest hfst
        refine ⟨by simp [hlen], ?_⟩
        intro j hj
        cases j with
        | zero =>
          simp
        | succ j =>
          have hj2 : j < rest.length := by
            simp only [List.length_cons] at hj
            omega
          have := hcol j hj2
          simp only [List.get_cons_succ]
          rw [this, show i + (j + 1) = i + 1 + j from by omega]

/-- C5: whenever compilation succeeds, the pattern at 0-based index i is paired with
the color colors[i mod paletteSize], for every regex builder outcome, pattern list
and case-sensitivity setting — so independently of pattern content — and the palette
is a fixed ordered list of 12 distinct colors. -/
theorem compile_palette_assignment (build : String → Bool → Except String Matcher)
    (ps : List String) (cs : Bool) (pairs : List (Matcher × Color))
    (h : (assign_color_to_pattern build ps cs).1 = Except.ok pairs) :
    pairs.length = ps.length ∧
    (∀ i (hi : i < pairs.length),
      (pairs.get ⟨i, hi⟩).2 = colors[i % colors.length]!) ∧
    colors.length = 12 ∧ colors.Nodup := by
  obtain ⟨hlen, hcol⟩ := assignGo_ok_colors build (!cs) ps 0 pairs h
  refine ⟨hlen, ?_, by decide, by decide⟩
  intro i hi
  have := hcol i hi
  simpa using this

lemma assignGo_firstFailure (build : String → Bool → Except String Matcher)
    (ci : Bool) :
    ∀ (ps : List String) (i : Nat) (p e : String),
      firstFailure build ci ps = some (p, e) →
      assignGo build ci i ps = (Except.error e, [compileErrMsg p e]) := by
  intro ps
  induction ps with
  | nil =>
    intro i p e h
    rw [firstFailure] at h
    exact absurd h (by simp)
  | cons q ps ih =>
    intro i p e h
    rw [firstFailure] at h
    rw [assignGo]
    cases hb : build q ci with
    | error e0 =>
      rw [hb] at h
      simp only [Option.some.injEq, Prod.mk.injEq] at h
      rw [h.1, h.2]
    | ok m =>
      rw [hb] at h
      rw [ih (i + 1) p e h]

/-- C7: if any pattern fails to build, compilation fails as a whole: the result is
the error of the first failing pattern, the diagnostic emitted names that pattern
together with the underlying message, and no partial pattern/color list is ever
produced. -/
theorem compile_failure_no_partial (build : String → Bool → Except String Matcher)
    (ps : List String) (cs : Bool) (p e : String)
    (h : firstFailure build (!cs) ps = some (p, e)) :
    (assign_color_to_pattern build ps cs).1 = Except.error e ∧
    (assign_color_to_pattern build ps cs).2 = [compileErrMsg p e] ∧
    ∀ pairs, (assign_color_to_pattern build ps cs).1 ≠ Except.ok pairs := by
  unfold assign_color_to_pattern
  rw [assignGo_firstFailure build (!cs) ps 0 p e h]
  exact ⟨rfl, rfl, fun pairs hc => by simp at hc⟩

/-- A concrete external regex builder that fails on the single pattern consisting of
an opening parenthesis and succeeds, with a matcher finding nothing, otherwise. -/
def failingBuild : String → Bool → Except String Matcher := fun p _ =>
  if p = "(" then Except.error "unclosed group" else Except.ok fun _ => []

/-- C8 as stated fails on the code: a single pattern-compile failure produces two
stderr diagnostics, not exactly one — the map_err eprintln inside
assign_color_to_pattern fires, and then the top-level eprintln in main reports the
same error again. -/
theorem error_diagnostics_counterexample :
    (mainDiagnostics failingBuild ["("] false).length = 2 ∧
    ¬ (mainDiagnostics failingBuild ["("] false).length = 1 := by
  constructor <;> decide

/-- C8 amended: no failure is silently swallowed — a line-read failure and a write
failure each produce exactly one diagnostic identifying the operation and cause,
while a pattern-compile failure produces exactly two: the compile-site message
naming the offending pattern and the cause, followed by the top-level pattern
creation message repeating the cause. -/
theorem error_diagnostics_amended (build : String → Bool → Except String Matcher)
    (ps : List String) (cs : Bool) (p e : String)
    (h : firstFailure build (!cs) ps = some (p, e)) :
    mainDiagnostics build ps cs = [compileErrMsg p e, creatingErrMsg e] ∧
    (∀ msg, writeDiag (Except.error msg) = [writeErrMsg msg]) ∧
    writeDiag (Except.ok ()) = [] ∧
    (∀ msg, readLineDiag (Except.error msg) = [readErrMsg msg]) ∧
    (∀ s, readLineDiag (Except.ok s) = []) := by
  refine ⟨?_, fun _ => rfl, rfl, fun _ => rfl, fun _ => rfl⟩
  unfold mainDiagnostics assign_color_to_pattern
  rw [assignGo_firstFailure build (!cs) ps 0 p e h]
  rfl

/-! Concrete inputs used to instantiate the theorems with hypotheses. -/

/-- A concrete five-character line. -/
def wLine : List Char := ['a', 'b', 'c', 'd', 'e']

/-- A matcher reporting one match at offsets 1 to 3 on any line. -/
def wMatcher1 : Matcher := fun _ => [(1, 3)]

/-- One compiled pattern/color pair built from wMatcher1. -/
def wPatterns : List (Matcher × Color) := [(wMatcher1, Color.Red)]

/-- Two pattern/color pairs producing matches that start at the same offset with
different ends. -/
def wPatterns2 : List (Matcher × Color) :=
  [(fun _ => [(0, 2)], Color.Red), (fun _ => [(0, 5)], Color.Yellow)]

/-- A pattern/color pair whose matcher never matches. -/
def wPatternsNone : List (Matcher × Color) := [(fun _ => [], Color.Red)]

/-- Two overlapping concrete matches. -/
def wm1 : Match := ⟨0, 3, Color.Red⟩

/-- The later-starting overlapping partner of wm1. -/
def wm2 : Match := ⟨2, 4, Color.Yellow⟩

/-- A concrete external regex builder that always succeeds with an empty matcher. -/
def okBuild : String → Bool → Except String Matcher := fun _ _ =>
  Except.ok fun _ => []

/-- The pattern/color pairs okBuild produces for two patterns. -/
def wPairs : List (Matcher × Color) :=
  [(fun _ => [], Color.Red), (fun _ => [], Color.Yellow)]

theorem span_roundtrip_preserves_line_witness :
    (∀ m ∈ collectMatches wLine wPatterns, m.start ≤ m.stop) ∧
    emittedText (apply_color wLine wPatterns false false).1 = wLine :=
  ⟨by decide, span_roundtrip_preserves_line wLine wPatterns false (by decide)⟩

theorem span_overlap_skip_witness :
    renderLoop wLine false (wm2 :: []) 3 = renderLoop wLine false [] 3 ∧
    renderLoop wLine false (wm1 :: [wm2]) 0 =
      SinkOp.write (slice wLine 0 wm1.start) ::
      SinkOp.setColor wm1.color false ::
      SinkOp.write (slice wLine wm1.start wm1.stop) ::
      SinkOp.reset ::
      renderLoop wLine false [wm2] wm1.stop :=
  ⟨(span_overlap_skip wLine false wm2 [] 3).1 (by decide),
   ((span_overlap_skip wLine false wm1 [wm2] 0).2.1 (by decide))⟩

theorem whole_line_color_selection_witness :
    ((⟨0, 2, Color.Red⟩ : Match) ∈ collectMatches wLine wPatterns2) ∧
    (∀ x ∈ collectMatches wLine wPatterns2,
      (⟨0, 2, Color.Red⟩ : Match).start ≤ x.start) ∧
    ((collectMatches wLine wPatterns2).find?
      (fun x => x.start == (⟨0, 2, Color.Red⟩ : Match).start) =
        some ⟨0, 2, Color.Red⟩) ∧
    apply_color wLine wPatterns2 true false =
      ([SinkOp.setColor Color.Red false, SinkOp.write wLine, SinkOp.reset,
        SinkOp.writeLine []], true) :=
  ⟨by decide, by decide, by decide,
   whole_line_color_selection wLine wPatterns2 false ⟨0, 2, Color.Red⟩
     (by decide) (by decide) (by decide)⟩

theorem compile_palette_assignment_witness :
    (assign_color_to_pattern okBuild ["a", "b"] false).1 = Except.ok wPairs ∧
    (wPairs.length = (["a", "b"] : List String).length ∧
     (∀ i (hi : i < wPairs.length),
       (wPairs.get ⟨i, hi⟩).2 = colors[i % colors.length]!) ∧
     colors.length = 12 ∧ colors.Nodup) :=
  ⟨rfl, compile_palette_assignment okBuild ["a", "b"] false wPairs rfl⟩

theorem no_match_passthrough_witness :
    collectMatches wLine wPatternsNone = [] ∧
    apply_color wLine wPatternsNone false false = ([SinkOp.writeLine wLine], false) :=
  ⟨by decide, (no_match_passthrough wLine wPatternsNone false false).2 (by decide)⟩

theorem compile_failure_no_partial_witness :
    firstFailure failingBuild (!false) ["a", "("] = some ("(", "unclosed group") ∧
    ((assign_color_to_pattern failingBuild ["a", "("] false).1 =
      Except.error "unclosed group" ∧
     (assign_color_to_pattern failingBuild ["a", "("] false).2 =
      [compileErrMsg "(" "unclosed group"] ∧
     ∀ pairs, (assign_color_to_pattern failingBuild ["a", "("] false).1 ≠
      Except.ok pairs) :=
  ⟨rfl, compile_failure_no_partial failingBuild ["a", "("] false "(" "unclosed group"
    rfl⟩

theorem error_diagnostics_amended_witness :
    firstFailure failingBuild (!false) ["("] = some ("(", "unclosed group") ∧
    (mainDiagnostics failingBuild ["("] false =
      [compileErrMsg "(" "unclosed group", creatingErrMsg "unclosed group"] ∧
     (∀ msg, writeDiag (Except.error msg) = [writeErrMsg msg]) ∧
     writeDiag (Except.ok ()) = [] ∧
     (∀ msg, readLineDiag (Except.error msg) = [readErrMsg msg]) ∧
     (∀ s, readLineDiag (Except.ok s) = [])) :=
  ⟨rfl, error_diagnostics_amended failingBuild ["("] false "(" "unclosed group" rfl⟩

theorem span_slicing_safe_witness :
    (∀ m ∈ [wm1, wm2], m.start ≤ m.stop ∧ m.stop ≤ wLine.length) ∧
    ∀ p ∈ spanSlices wLine.length [wm1, wm2] 0, p.1 ≤ p.2 ∧ p.2 ≤ wLine.length :=
  ⟨by decide, (span_slicing_safe wLine false [wm1, wm2]).2 (by decide)⟩

end Ttynt
